import Mathlib

/-!
Shallow embedding of `bundle/bundle.py` (webknjaz/bundle).
Python strings are modelled as `List Char`; Python exceptions as `Option`
(or an explicit result type); the unbounded `while 1:` loops as
fuel-indexed functions whose fuel-out result marks an execution that has
not finished yet.  Every definition is translated from the source file.
-/

/-- Python `str` on a single decimal digit, as a character (codepoint 48
is `'0'`; only ever applied to values below 10). -/
def digitToChar (d : Nat) : Char := Char.ofNat (48 + d)

/-- Numeric value of a decimal digit character; `none` on any other
character (Python `int` raises `ValueError` there). -/
def digitVal (c : Char) : Option Nat :=
  if '0' ≤ c ∧ c ≤ '9' then some (c.toNat - 48) else none

/-- Little-endian decimal digits of `n`; the first argument is fuel
(`n` itself always suffices, see `foldr_toDigitsRev`). -/
def toDigitsRev : Nat → Nat → List Nat
  | 0, _ => []
  | fuel + 1, n => if n = 0 then [] else n % 10 :: toDigitsRev fuel (n / 10)

/-- Python `str` on a non-negative integer: its canonical decimal numeral. -/
def natRepr (n : Nat) : List Char :=
  if n = 0 then ['0'] else ((toDigitsRev n n).map digitToChar).reverse

/-- Map a fallible function over a list, failing as soon as one element
fails (Python `map(int, ...)` consumed by the `list` constructor). -/
def mapOpt (f : α → Option β) : List α → Option (List β)
  | [] => some []
  | a :: l =>
    match f a, mapOpt f l with
    | some b, some bs => some (b :: bs)
    | _, _ => none

/-- Python `int(s)` on the decimal numerals that occur in version strings:
every character must be a digit and the string nonempty.  (Python `int`
additionally tolerates surrounding whitespace, a sign and underscore
separators; those shapes never round-trip through `str` and are outside
the claims, so they are not modelled.) -/
def parseNat (l : List Char) : Option Nat :=
  if l = [] then none
  else (mapOpt digitVal l).map (fun ds => ds.foldl (fun a d => a * 10 + d) 0)

/-- Python `s.split(sep)` for a one-character separator: splits on every
occurrence, keeping empty pieces; the result is never empty. -/
def splitOnChar (sep : Char) : List Char → List (List Char)
  | [] => [[]]
  | c :: cs =>
    if c = sep then [] :: splitOnChar sep cs
    else
      match splitOnChar sep cs with
      | [] => [[c]]
      | p :: ps => (c :: p) :: ps

/-- Python `sep.join(parts)` for a one-character separator. -/
def joinSep (sep : Char) : List (List Char) → List Char
  | [] => []
  | [p] => p
  | p :: ps => p ++ sep :: joinSep sep ps

/-- Python `s.partition(sep)` for a one-character separator, keeping the
pieces before and after the first occurrence; the second component is `[]`
when the separator is absent (Python returns `''` there). -/
def partitionFirst (sep : Char) : List Char → List Char × List Char
  | [] => ([], [])
  | c :: cs =>
    if c = sep then ([], cs)
    else
      let r := partitionFirst sep cs
      (c :: r.1, r.2)

/-- `class Version(list)`: the dotted numeric segments (the list contents)
together with the development suffix taken from after the first `-`
(`self.devel`; `[]` models Python's empty string). -/
structure Version where
  nums : List Nat
  devel : List Char
deriving DecidableEq

/-- `Version.__init__`: `value, _, self.devel = value.partition('-')`
followed by `list.__init__(self, map(int, value.split(".")))`; `none`
models the `ValueError` raised by `int` on a non-numeric segment. -/
def parseVersion (value : List Char) : Option Version :=
  let pre := partitionFirst '-' value
  (mapOpt parseNat (splitOnChar '.' pre.1)).map (fun ns => ⟨ns, pre.2⟩)

/-- `Version.is_devel`: `bool(self.devel)`. -/
def Version.is_devel (v : Version) : Bool := !v.devel.isEmpty

/-- `Version._develpart`: `'-' + self.devel` when the suffix is nonempty,
else the empty string. -/
def develPart (v : Version) : List Char :=
  if v.devel.isEmpty then [] else '-' :: v.devel

/-- `Version.__str__`: `".".join(map(str, self)) + self._develpart`. -/
def vstr (v : Version) : List Char :=
  joinSep '.' (v.nums.map natRepr) ++ develPart v

/-- `self[-1] += 1` on a nonempty list: increment the last element. -/
def bumpLast : List Nat → List Nat
  | [] => []
  | [x] => [x + 1]
  | x :: xs => x :: bumpLast xs

/-- `Version.bump`: raises (`none`) on a development version; otherwise
appends a single `0` segment when fewer than 3 segments exist, then
increments the last segment. -/
def Version.bump (v : Version) : Option Version :=
  if v.is_devel then none
  else some ⟨bumpLast (if v.nums.length < 3 then v.nums ++ [0] else v.nums), v.devel⟩

/-- The segment transformation a successful `bump` performs. -/
def bumpNums (ns : List Nat) : List Nat :=
  bumpLast (if ns.length < 3 then ns ++ [0] else ns)

/-- The bump chain: the versions obtained from `v` by `n` successful bumps
(`bump` keeps the suffix, so the suffix is constant along the chain). -/
def chainF (v : Version) (n : Nat) : Version :=
  ⟨bumpNums^[n] v.nums, v.devel⟩

/-- Python list `__lt__`, inherited by `Version` from `list`: elementwise
comparison, the first differing pair decides, a strict prefix is smaller. -/
def pyListLt : List Nat → List Nat → Bool
  | [], [] => false
  | [], _ :: _ => true
  | _ :: _, [] => false
  | x :: xs, y :: ys => if x < y then true else if y < x then false else pyListLt xs ys

/-- `Version < Version` as Python evaluates it (list order on the integer
segments; the development suffix is not consulted). -/
def Version.ltb (a b : Version) : Bool := pyListLt a.nums b.nums

/-- `Version == Version` as Python evaluates it (list equality on the
integer segments; the development suffix is not consulted). -/
def Version.eqb (a b : Version) : Bool := a.nums = b.nums

/-- Result of one of the `while 1:` loops: `diverge` marks an execution
that has not finished within the given fuel, `error` a raised
`ValueError`, `done s` a normal return of the string `s`. -/
inductive LoopRes
  | diverge
  | error
  | done (s : List Char)
deriving DecidableEq

/-- The loop body of `Bundle.sync_version_from_pypi`, paired with the
number of index probes (`self._version_exists` queries the index with
`str(version)`).  Each iteration probes the current version: when absent
it returns `prev`; when present it remembers `str(version)` and bumps. -/
def syncLoop (ex : List Char → Bool) : Nat → Version → List Char → LoopRes × Nat
  | 0, _, _ => (.diverge, 0)
  | fuel + 1, v, prev =>
    if ex (vstr v) then
      match v.bump with
      | none => (.error, 1)
      | some v2 =>
        let r := syncLoop ex fuel v2 (vstr v)
        (r.1, r.2 + 1)
    else (.done prev, 1)

/-- `Bundle.sync_version_from_pypi`: parses the stored version string,
seeds `prev` with `str(version)` and runs the loop.  On `done s` the code
also assigns `self.version = s` and returns `s` (the returned and the
stored string are the same value). -/
def sync_version_from_pypi (ex : List Char → Bool) (fuel : Nat)
    (stored : List Char) : LoopRes × Nat :=
  match parseVersion stored with
  | none => (.error, 0)
  | some v => syncLoop ex fuel v (vstr v)

/-- The loop of `Bundle.bump_if_already_on_pypi`: probes the current
version, breaking when it is absent, else bumping and retrying. -/
def bumpLoop (ex : List Char → Bool) : Nat → Version → LoopRes × Nat
  | 0, _ => (.diverge, 0)
  | fuel + 1, v =>
    if ex (vstr v) then
      match v.bump with
      | none => (.error, 1)
      | some v2 =>
        let r := bumpLoop ex fuel v2
        (r.1, r.2 + 1)
    else (.done (vstr v), 1)

/-- `Bundle.bump_if_already_on_pypi`: parses the stored version and runs
the loop; on `done s` the code assigns `self.version = str(version)` and
returns it (the returned and the stored string are the same value). -/
def bump_if_already_on_pypi (ex : List Char → Bool) (fuel : Nat)
    (stored : List Char) : LoopRes × Nat :=
  match parseVersion stored with
  | none => (.error, 0)
  | some v => bumpLoop ex fuel v

/-- A fake package index in which exactly the version strings `"1.0"` and
`"1.1"` exist (the scenario of the spec's first sync test). -/
def pypiIndexTwo : List Char → Bool :=
  fun s => s == ['1', '.', '0'] || s == ['1', '.', '1']

/-- A fake package index in which exactly the version string `"1.0"`
exists. -/
def pypiIndexOne : List Char → Bool :=
  fun s => s == ['1', '.', '0']

/-- Process-level state touched by `render_to_temp`: the working directory
and the set of existing temporary directories, both named by numeric ids;
`next` is the next fresh id `mkdtemp` hands out. -/
structure FS where
  cwd : Nat
  dirs : List Nat
  next : Nat
deriving DecidableEq

/-- Outcome of running a block: normal completion or an exception
propagating out, each with the state left behind. -/
inductive Outcome
  | ok (s : FS)
  | exc (s : FS)
deriving DecidableEq

/-- The `changedir` context manager: `prev = os.getcwd(); os.chdir(new);
yield new; os.chdir(prev)`.  The generator has no `try/finally`, so when
the block raises, the exception propagates out of the `yield` and the
final `os.chdir(prev)` is never executed. -/
def changedir (new : Nat) (body : FS → Outcome) (s : FS) : Outcome :=
  let prev := s.cwd
  match body ⟨new, s.dirs, s.next⟩ with
  | .ok s2 => .ok ⟨prev, s2.dirs, s2.next⟩
  | .exc s2 => .exc s2

/-- The `Bundle.temporary_dir` context manager: `dirname = mkdtemp();
yield dirname; rmtree(dirname)`.  Again no `try/finally`: when the block
raises, `rmtree` is never executed.  `rmtree` removes the directory and
everything in it, modelled as dropping the id from `dirs`. -/
def temporary_dir (body : Nat → FS → Outcome) (s : FS) : Outcome :=
  let d := s.next
  match body d ⟨s.cwd, d :: s.dirs, s.next + 1⟩ with
  | .ok s2 => .ok ⟨s2.cwd, s2.dirs.filter (· ≠ d), s2.next⟩
  | .exc s2 => .exc s2

/-- `Bundle.render_to_temp`: a temporary directory, a named temporary
setup file inside it, and a `changedir` into the directory for the span of
the block.  `body` stands for everything executed inside the innermost
scope — the writes of the rendered setup script and README (which can
raise, e.g. on a missing template placeholder) followed by the caller's
block — and receives the directory id.  (`NamedTemporaryFile` deletes
only its own file on exit; at directory granularity it is invisible.) -/
def render_to_temp (body : Nat → FS → Outcome) (s : FS) : Outcome :=
  temporary_dir (fun d s1 => changedir d (fun s2 => body d s2) s1) s

/-- First character of a `string.Template` identifier:
`[_a-zA-Z]` (the default pattern with the IGNORECASE flag). -/
def isIdStart (c : Char) : Bool := c = '_' || c.isAlpha

/-- Subsequent characters of a `string.Template` identifier: `[_a-zA-Z0-9]`. -/
def isIdChar (c : Char) : Bool := isIdStart c || c.isDigit

/-- `string.Template(...).substitute(**mapping)`: scans for `$$` (literal
dollar), `$identifier` and `${identifier}`; a `$` followed by anything
else raises `ValueError`, an identifier missing from the mapping raises
`KeyError` — both modelled as `none`.  The first argument is fuel; each
step consumes at least one character, so the template length suffices
(see `substitute`). -/
def substFuel (m : List Char → Option (List Char)) : Nat → List Char → Option (List Char)
  | _, [] => some []
  | 0, _ :: _ => none
  | fuel + 1, c :: rest =>
    if c = '$' then
      match rest with
      | [] => none
      | c2 :: r2 =>
        if c2 = '$' then (substFuel m fuel r2).map (fun t => '$' :: t)
        else if c2 = '{' then
          match r2 with
          | [] => none
          | c3 :: r3 =>
            if isIdStart c3 then
              match r3.dropWhile isIdChar with
              | '}' :: r4 =>
                match m (c3 :: r3.takeWhile isIdChar) with
                | none => none
                | some v => (substFuel m fuel r4).map (fun t => v ++ t)
              | _ => none
            else none
        else if isIdStart c2 then
          match m (c2 :: r2.takeWhile isIdChar) with
          | none => none
          | some v => (substFuel m fuel (r2.dropWhile isIdChar)).map (fun t => v ++ t)
        else none
    else (substFuel m fuel rest).map (fun t => c :: t)

/-- The identifiers a template references, collected by the same scan as
`substFuel` (stopping at an invalid placeholder, where substitution
raises regardless of the mapping). -/
def refsFuel : Nat → List Char → List (List Char)
  | _, [] => []
  | 0, _ :: _ => []
  | fuel + 1, c :: rest =>
    if c = '$' then
      match rest with
      | [] => []
      | c2 :: r2 =>
        if c2 = '$' then refsFuel fuel r2
        else if c2 = '{' then
          match r2 with
          | [] => []
          | c3 :: r3 =>
            if isIdStart c3 then
              match r3.dropWhile isIdChar with
              | '}' :: r4 => (c3 :: r3.takeWhile isIdChar) :: refsFuel fuel r4
              | _ => []
            else []
        else if isIdStart c2 then
          (c2 :: r2.takeWhile isIdChar) :: refsFuel fuel (r2.dropWhile isIdChar)
        else []
    else refsFuel fuel rest

/-- `Template(tmpl).substitute(**m)`: the scan with enough fuel. -/
def substitute (m : List Char → Option (List Char)) (tmpl : List Char) :
    Option (List Char) :=
  substFuel m tmpl.length tmpl

/-- The identifiers referenced by a template. -/
def refsIn (tmpl : List Char) : List (List Char) := refsFuel tmpl.length tmpl

/-- The slice of `Bundle` the rendering claims need: `stash` models the
keyword mapping `self.stash` handed to `Template.substitute` (the
metadata dict plus the derived fields), and the two template texts model
`self.setup_template` / `self.readme_template`. -/
structure Bundle where
  stash : List Char → Option (List Char)
  setup_template : List Char
  readme_template : List Char

/-- `Bundle.render_setup`:
`Template(self.setup_template).substitute(**self.stash)`. -/
def Bundle.render_setup (b : Bundle) : Option (List Char) :=
  substitute b.stash b.setup_template

/-- `Bundle.render_readme`:
`Template(self.readme_template).substitute(**self.stash)`. -/
def Bundle.render_readme (b : Bundle) : Option (List Char) :=
  substitute b.stash b.readme_template

theorem digitVal_digitToChar {d : Nat} (h : d < 10) :
    digitVal (digitToChar d) = some d := by
  interval_cases d <;> rfl

theorem digitToChar_ne_dot {d : Nat} (h : d < 10) : digitToChar d ≠ '.' := by
  interval_cases d <;> decide

theorem digitToChar_ne_dash {d : Nat} (h : d < 10) : digitToChar d ≠ '-' := by
  interval_cases d <;> decide

theorem toDigitsRev_lt {fuel n d : Nat} (h : d ∈ toDigitsRev fuel n) : d < 10 := by
  induction fuel generalizing n with
  | zero => simp [toDigitsRev] at h
  | succ fuel ih =>
    by_cases h0 : n = 0
    · simp [toDigitsRev, h0] at h
    · simp only [toDigitsRev, h0, if_false, List.mem_cons] at h
      rcases h with h | h
      · subst h; exact Nat.mod_lt _ (by norm_num)
      · exact ih h

theorem toDigitsRev_ne_nil {fuel n : Nat} (hf : 0 < fuel) (hn : n ≠ 0) :
    toDigitsRev fuel n ≠ [] := by
  cases fuel with
  | zero => omega
  | succ fuel => simp [toDigitsRev, hn]

theorem foldr_toDigitsRev {fuel n : Nat} (h : n ≤ fuel) :
    (toDigitsRev fuel n).foldr (fun d a => a * 10 + d) 0 = n := by
  induction fuel generalizing n with
  | zero =>
    have : n = 0 := by omega
    subst this; rfl
  | succ fuel ih =>
    by_cases h0 : n = 0
    · subst h0; simp [toDigitsRev]
    · have hlt : n / 10 < n := Nat.div_lt_self (Nat.pos_of_ne_zero h0) (by norm_num)
      have hdiv : n / 10 ≤ fuel := by omega
      simp only [toDigitsRev, h0, if_false, List.foldr_cons, ih hdiv]
      omega

theorem mapOpt_digitToChar {ds : List Nat} (h : ∀ d ∈ ds, d < 10) :
    mapOpt digitVal (ds.map digitToChar) = some ds := by
  induction ds with
  | nil => rfl
  | cons d ds ih =>
    have hd : d < 10 := h d (by simp)
    have ht := ih (fun x hx => h x (by simp [hx]))
    simp [mapOpt, digitVal_digitToChar hd, ht]

theorem natRepr_ne_nil (n : Nat) : natRepr n ≠ [] := by
  by_cases h0 : n = 0
  · subst h0; simp [natRepr]
  · simp only [natRepr, h0, if_false]
    intro h
    exact toDigitsRev_ne_nil (Nat.pos_of_ne_zero h0) h0 (by simpa using h)

theorem mem_natRepr_digit {n : Nat} {c : Char} (h : c ∈ natRepr n) :
    ∃ d, d < 10 ∧ c = digitToChar d := by
  by_cases h0 : n = 0
  · subst h0; simp [natRepr] at h
    exact ⟨0, by norm_num, h⟩
  · simp only [natRepr, h0, if_false, List.mem_reverse, List.mem_map] at h
    obtain ⟨d, hd, rfl⟩ := h
    exact ⟨d, toDigitsRev_lt hd, rfl⟩

theorem parseNat_natRepr (n : Nat) : parseNat (natRepr n) = some n := by
  by_cases h0 : n = 0
  · subst h0; rfl
  · have hne := natRepr_ne_nil n
    simp only [natRepr, h0, if_false] at hne ⊢
    rw [parseNat, if_neg hne, ← List.map_reverse]
    rw [mapOpt_digitToChar (fun d hd => toDigitsRev_lt (List.mem_reverse.mp hd))]
    simp only [Option.map_some']
    congr 1
    rw [List.foldl_reverse]
    exact foldr_toDigitsRev (le_refl n)

theorem splitOnChar_ne_nil (sep : Char) (l : List Char) : splitOnChar sep l ≠ [] := by
  cases l with
  | nil => simp [splitOnChar]
  | cons c cs =>
    by_cases h : c = sep
    · simp [splitOnChar, h]
    · simp only [splitOnChar, h, if_false]
      cases splitOnChar sep cs <;> simp

theorem splitOnChar_sep_cons (sep : Char) (l : List Char) :
    splitOnChar sep (sep :: l) = [] :: splitOnChar sep l := by
  simp [splitOnChar]

theorem splitOnChar_append {sep : Char} {p : List Char} (hp : sep ∉ p) (l : List Char) :
    splitOnChar sep (p ++ l) =
      (p ++ (splitOnChar sep l).headI) :: (splitOnChar sep l).tail := by
  induction p with
  | nil =>
    rcases h : splitOnChar sep l with _ | ⟨q, qs⟩
    · exact absurd h (splitOnChar_ne_nil sep l)
    · simp [h]
  | cons c cs ih =>
    simp only [List.mem_cons, not_or] at hp
    have hc : c ≠ sep := Ne.symm hp.1
    have hcs : sep ∉ cs := hp.2
    simp only [List.cons_append, splitOnChar, hc, if_false, List.append_eq]
    rw [ih hcs]

theorem splitOnChar_joinSep {sep : Char} {parts : List (List Char)}
    (hne : parts ≠ []) (h : ∀ p ∈ parts, sep ∉ p) :
    splitOnChar sep (joinSep sep parts) = parts := by
  induction parts with
  | nil => exact absurd rfl hne
  | cons p ps ih =>
    cases ps with
    | nil =>
      have hp : sep ∉ p := h p (by simp)
      have hs : splitOnChar sep (p ++ []) = [p] := by
        rw [splitOnChar_append hp]; simp [splitOnChar]
      simpa [joinSep] using hs
    | cons q qs =>
      have hp : sep ∉ p := h p (by simp)
      have ihq := ih (by simp) (fun x hx => h x (by simp [List.mem_cons] at hx ⊢; tauto))
      show splitOnChar sep (p ++ sep :: joinSep sep (q :: qs)) = p :: q :: qs
      rw [splitOnChar_append hp, splitOnChar_sep_cons, ihq]
      simp

theorem partitionFirst_of_not_mem {sep : Char} {l : List Char} (h : sep ∉ l) :
    partitionFirst sep l = (l, []) := by
  induction l with
  | nil => rfl
  | cons c cs ih =>
    simp only [List.mem_cons, not_or] at h
    have hc : c ≠ sep := Ne.symm h.1
    simp [partitionFirst, hc, ih h.2]

theorem bumpLast_append_last (xs : List Nat) (x : Nat) :
    bumpLast (xs ++ [x]) = xs ++ [x + 1] := by
  induction xs with
  | nil => rfl
  | cons y ys ih =>
    cases ys with
    | nil => simp [bumpLast] at ih ⊢
    | cons z zs => simpa [bumpLast] using ih

theorem bumpLast_eq_dropLast {ns : List Nat} (h : ns ≠ []) :
    bumpLast ns = ns.dropLast ++ [ns.getLast h + 1] := by
  have hd := List.dropLast_append_getLast h
  conv_lhs => rw [← hd]
  rw [bumpLast_append_last]

theorem chainF_zero (v : Version) : chainF v 0 = v := rfl

theorem chainF_devel (v : Version) (n : Nat) : (chainF v n).devel = v.devel := rfl

theorem chainF_succ_shift (v : Version) (n : Nat) :
    chainF v (n + 1) = chainF (chainF v 1) n := by
  simp [chainF, Function.iterate_succ_apply]

theorem bump_eq_none_iff (v : Version) : v.bump = none ↔ v.is_devel = true := by
  unfold Version.bump
  by_cases h : v.is_devel <;> simp [h]

theorem bump_of_not_devel {v : Version} (h : v.is_devel = false) :
    v.bump = some (chainF v 1) := by
  unfold Version.bump chainF
  simp [h, bumpNums, Function.iterate_one]

theorem mapOpt_map_of_forall {f : β → Option α} {g : α → β} {l : List α}
    (h : ∀ a ∈ l, f (g a) = some a) : mapOpt f (l.map g) = some l := by
  induction l with
  | nil => rfl
  | cons a l ih =>
    have ha := h a (by simp)
    have ht := ih (fun x hx => h x (by simp [hx]))
    simp [mapOpt, ha, ht]

theorem mem_joinSep {sep : Char} {parts : List (List Char)} {c : Char}
    (h : c ∈ joinSep sep parts) : c = sep ∨ ∃ p ∈ parts, c ∈ p := by
  induction parts with
  | nil => simp [joinSep] at h
  | cons p ps ih =>
    cases ps with
    | nil =>
      simp only [joinSep] at h
      exact Or.inr ⟨p, by simp, h⟩
    | cons q qs =>
      simp only [joinSep, List.mem_append, List.mem_cons] at h
      rcases h with h | h | h
      · exact Or.inr ⟨p, by simp, h⟩
      · exact Or.inl h
      · rcases ih h with h | ⟨r, hr, hcr⟩
        · exact Or.inl h
        · exact Or.inr ⟨r, by simp [List.mem_cons] at hr ⊢; tauto, hcr⟩

theorem vstr_not_devel {v : Version} (h : v.devel = []) :
    vstr v = joinSep '.' (v.nums.map natRepr) := by
  simp [vstr, develPart, h]

theorem mem_vstr_digit_or_dot {ns : List Nat} {c : Char}
    (h : c ∈ vstr ⟨ns, []⟩) : c = '.' ∨ ∃ d, d < 10 ∧ c = digitToChar d := by
  rw [vstr_not_devel rfl] at h
  rcases mem_joinSep h with h | ⟨p, hp, hcp⟩
  · exact Or.inl h
  · simp only [List.mem_map] at hp
    obtain ⟨n, _, rfl⟩ := hp
    exact Or.inr (mem_natRepr_digit hcp)

theorem dash_not_mem_vstr {ns : List Nat} : '-' ∉ vstr ⟨ns, []⟩ := by
  intro h
  rcases mem_vstr_digit_or_dot h with h | ⟨d, hd, hc⟩
  · exact absurd h.symm (by decide)
  · exact digitToChar_ne_dash hd hc.symm

theorem dot_not_mem_natRepr {n : Nat} : '.' ∉ natRepr n := by
  intro h
  obtain ⟨d, hd, hc⟩ := mem_natRepr_digit h
  exact digitToChar_ne_dot hd hc.symm

/-- Parsing the canonical rendering of a suffix-free version recovers it. -/
theorem parseVersion_vstr {ns : List Nat} (h : ns ≠ []) :
    parseVersion (vstr ⟨ns, []⟩) = some ⟨ns, []⟩ := by
  have hdash := partitionFirst_of_not_mem (@dash_not_mem_vstr ns)
  unfold parseVersion
  rw [hdash]
  rw [vstr_not_devel rfl]
  dsimp only
  rw [splitOnChar_joinSep (by simpa using h)
    (by
      intro p hp
      simp only [List.mem_map] at hp
      obtain ⟨n, _, rfl⟩ := hp
      exact dot_not_mem_natRepr)]
  rw [mapOpt_map_of_forall (fun n _ => parseNat_natRepr n)]
  rfl

/-- A normal return of `syncLoop` is either the seed (first probe absent)
or the last chain version confirmed present, the next one being absent. -/
theorem syncLoop_done_charact {ex : List Char → Bool} {fuel : Nat} {v : Version}
    {prev s : List Char} (h : (syncLoop ex fuel v prev).1 = .done s) :
    (ex (vstr v) = false ∧ s = prev) ∨
      (ex (vstr v) = true ∧ ∃ n, (∀ k, k ≤ n → ex (vstr (chainF v k)) = true) ∧
        ex (vstr (chainF v (n + 1))) = false ∧ s = vstr (chainF v n)) := by
  induction fuel generalizing v prev with
  | zero => simp [syncLoop] at h
  | succ fuel ih =>
    by_cases hex : ex (vstr v) = true
    · rcases hb : v.bump with _ | v2
      · simp [syncLoop, hex, hb] at h
      · have hnd : v.is_devel = false := by
          by_cases hd : v.is_devel = true
          · rw [(bump_eq_none_iff v).mpr hd] at hb; cases hb
          · simpa using hd
        have hv2 : v2 = chainF v 1 := by
          rw [bump_of_not_devel hnd] at hb; exact (Option.some_inj.mp hb).symm
        subst hv2
        simp only [syncLoop, hex, if_true, hb] at h
        rcases ih h with ⟨h1, rfl⟩ | ⟨h1, n, hall, habs, rfl⟩
        · refine Or.inr ⟨hex, 0, ?_, ?_, rfl⟩
          · intro k hk
            interval_cases k
            exact hex
          · simpa using h1
        · refine Or.inr ⟨hex, n + 1, ?_, ?_, ?_⟩
          · intro k hk
            cases k with
            | zero => exact hex
            | succ j => rw [chainF_succ_shift v j]; exact hall j (by omega)
          · rw [chainF_succ_shift v (n + 1)]; exact habs
          · rw [chainF_succ_shift v n]
    · have hex' : ex (vstr v) = false := by simpa using hex
      simp [syncLoop, hex'] at h
      exact Or.inl ⟨hex', h.symm⟩

/-- A normal return of `bumpLoop` is the first chain version absent from
the index, every earlier chain version being present. -/
theorem bumpLoop_done_charact {ex : List Char → Bool} {fuel : Nat} {v : Version}
    {s : List Char} (h : (bumpLoop ex fuel v).1 = .done s) :
    ∃ n, (∀ k, k < n → ex (vstr (chainF v k)) = true) ∧
      ex (vstr (chainF v n)) = false ∧ s = vstr (chainF v n) := by
  induction fuel generalizing v with
  | zero => simp [bumpLoop] at h
  | succ fuel ih =>
    by_cases hex : ex (vstr v) = true
    · rcases hb : v.bump with _ | v2
      · simp [bumpLoop, hex, hb] at h
      · have hnd : v.is_devel = false := by
          by_cases hd : v.is_devel = true
          · rw [(bump_eq_none_iff v).mpr hd] at hb; cases hb
          · simpa using hd
        have hv2 : v2 = chainF v 1 := by
          rw [bump_of_not_devel hnd] at hb; exact (Option.some_inj.mp hb).symm
        subst hv2
        simp only [bumpLoop, hex, if_true, hb] at h
        obtain ⟨n, hall, habs, rfl⟩ := ih h
        refine ⟨n + 1, ?_, ?_, ?_⟩
        · intro k hk
          cases k with
          | zero => exact hex
          | succ j => rw [chainF_succ_shift v j]; exact hall j (by omega)
        · rw [chainF_succ_shift v n]; exact habs
        · rw [chainF_succ_shift v n]
    · have hex' : ex (vstr v) = false := by simpa using hex
      simp [bumpLoop, hex'] at h
      exact ⟨0, by omega, hex', h.symm⟩

theorem syncLoop_succ_present {ex : List Char → Bool} {fuel : Nat} {v v2 : Version}
    {prev : List Char} (hex : ex (vstr v) = true) (hb : v.bump = some v2) :
    syncLoop ex (fuel + 1) v prev =
      ((syncLoop ex fuel v2 (vstr v)).1, (syncLoop ex fuel v2 (vstr v)).2 + 1) := by
  simp [syncLoop, hex, hb]

theorem bumpLoop_succ_present {ex : List Char → Bool} {fuel : Nat} {v v2 : Version}
    (hex : ex (vstr v) = true) (hb : v.bump = some v2) :
    bumpLoop ex (fuel + 1) v =
      ((bumpLoop ex fuel v2).1, (bumpLoop ex fuel v2).2 + 1) := by
  simp [bumpLoop, hex, hb]

/-- If some chain version is absent, `syncLoop` returns within that much
fuel (suffix-free versions only: `bump` never raises along the chain). -/
theorem syncLoop_done_of_absent {ex : List Char → Bool} {v : Version}
    (hd : v.devel = []) {n : Nat} (h : ex (vstr (chainF v n)) = false) :
    ∀ prev, ∃ s, (syncLoop ex (n + 1) v prev).1 = .done s := by
  induction n generalizing v with
  | zero =>
    intro prev
    have h0 : ex (vstr v) = false := h
    exact ⟨prev, by simp [syncLoop, h0]⟩
  | succ n ih =>
    intro prev
    by_cases hex : ex (vstr v) = true
    · have hnd : v.is_devel = false := by simp [Version.is_devel, hd]
      have hb := bump_of_not_devel hnd
      have hd1 : (chainF v 1).devel = [] := by rw [chainF_devel]; exact hd
      have h1 : ex (vstr (chainF (chainF v 1) n)) = false := by
        rw [← chainF_succ_shift]; exact h
      obtain ⟨s, hs⟩ := ih hd1 h1 (vstr v)
      exact ⟨s, by rw [syncLoop_succ_present hex hb]; exact hs⟩
    · have hex' : ex (vstr v) = false := by simpa using hex
      exact ⟨prev, by simp [syncLoop, hex']⟩

/-- If some chain version is absent, `bumpLoop` returns within that much
fuel (suffix-free versions only). -/
theorem bumpLoop_done_of_absent {ex : List Char → Bool} {v : Version}
    (hd : v.devel = []) {n : Nat} (h : ex (vstr (chainF v n)) = false) :
    ∃ s, (bumpLoop ex (n + 1) v).1 = .done s := by
  induction n generalizing v with
  | zero =>
    have h0 : ex (vstr v) = false := h
    exact ⟨vstr v, by simp [bumpLoop, h0]⟩
  | succ n ih =>
    by_cases hex : ex (vstr v) = true
    · have hnd : v.is_devel = false := by simp [Version.is_devel, hd]
      have hb := bump_of_not_devel hnd
      have hd1 : (chainF v 1).devel = [] := by rw [chainF_devel]; exact hd
      have h1 : ex (vstr (chainF (chainF v 1) n)) = false := by
        rw [← chainF_succ_shift]; exact h
      obtain ⟨s, hs⟩ := ih hd1 h1
      exact ⟨s, by rw [bumpLoop_succ_present hex hb]; exact hs⟩
    · have hex' : ex (vstr v) = false := by simpa using hex
      exact ⟨vstr v, by simp [bumpLoop, hex']⟩

/-- When every chain version is present, `syncLoop` on a suffix-free
version never finishes: every fuel runs out. -/
theorem syncLoop_diverge_of_all_present {ex : List Char → Bool} {v : Version}
    (hd : v.devel = []) (h : ∀ n, ex (vstr (chainF v n)) = true) :
    ∀ fuel prev, (syncLoop ex fuel v prev).1 = .diverge := by
  intro fuel
  induction fuel generalizing v with
  | zero => intro prev; rfl
  | succ fuel ih =>
    intro prev
    have hex : ex (vstr v) = true := by simpa [chainF_zero] using h 0
    have hnd : v.is_devel = false := by simp [Version.is_devel, hd]
    have hb := bump_of_not_devel hnd
    have hd1 : (chainF v 1).devel = [] := by rw [chainF_devel]; exact hd
    have h1 : ∀ n, ex (vstr (chainF (chainF v 1) n)) = true := by
      intro n; rw [← chainF_succ_shift]; exact h (n + 1)
    simp [syncLoop, hex, hb, ih hd1 h1]

/-- When every chain version is present, `bumpLoop` on a suffix-free
version never finishes. -/
theorem bumpLoop_diverge_of_all_present {ex : List Char → Bool} {v : Version}
    (hd : v.devel = []) (h : ∀ n, ex (vstr (chainF v n)) = true) :
    ∀ fuel, (bumpLoop ex fuel v).1 = .diverge := by
  intro fuel
  induction fuel generalizing v with
  | zero => rfl
  | succ fuel ih =>
    have hex : ex (vstr v) = true := by simpa [chainF_zero] using h 0
    have hnd : v.is_devel = false := by simp [Version.is_devel, hd]
    have hb := bump_of_not_devel hnd
    have hd1 : (chainF v 1).devel = [] := by rw [chainF_devel]; exact hd
    have h1 : ∀ n, ex (vstr (chainF (chainF v 1) n)) = true := by
      intro n; rw [← chainF_succ_shift]; exact h (n + 1)
    simp [bumpLoop, hex, hb, ih hd1 h1]

theorem pyListLt_iff_lex (xs ys : List Nat) :
    pyListLt xs ys = true ↔ List.Lex (· < ·) xs ys := by
  induction xs generalizing ys with
  | nil =>
    cases ys with
    | nil =>
      constructor
      · intro h; simp [pyListLt] at h
      · intro h; cases h
    | cons y ys =>
      constructor
      · intro _; exact List.Lex.nil
      · intro _; rfl
  | cons x xs ih =>
    cases ys with
    | nil =>
      constructor
      · intro h; simp [pyListLt] at h
      · intro h; cases h
    | cons y ys =>
      rcases lt_trichotomy x y with hlt | heq | hgt
      · constructor
        · intro _; exact List.Lex.rel hlt
        · intro _; simp [pyListLt, hlt]
      · subst heq
        have hred : pyListLt (x :: xs) (x :: ys) = pyListLt xs ys := by
          simp [pyListLt]
        rw [hred, ih ys]
        exact Iff.symm List.Lex.cons_iff
      · have h1 : ¬x < y := by omega
        have hred : pyListLt (x :: xs) (y :: ys) = false := by
          simp [pyListLt, h1, hgt]
        rw [hred]
        constructor
        · intro h; simp at h
        · intro h
          exfalso
          cases h with
          | cons h2 => omega
          | rel h2 => omega

/-- Substitution fails whenever some referenced identifier is missing
from the mapping, whatever the fuel on either side. -/
theorem substFuel_none_of_missing {m : List Char → Option (List Char)}
    {p : List Char} (hm : m p = none) :
    ∀ fuel fuel' t, p ∈ refsFuel fuel t → substFuel m fuel' t = none := by
  intro fuel
  induction fuel with
  | zero =>
    intro fuel' t hp
    cases t <;> simp [refsFuel] at hp
  | succ fuel ih =>
    intro fuel' t hp
    cases t with
    | nil => simp [refsFuel] at hp
    | cons c rest =>
      cases fuel' with
      | zero => rfl
      | succ fuel' =>
        by_cases hc : c = '$'
        · subst hc
          cases rest with
          | nil => simp [refsFuel] at hp
          | cons c2 r2 =>
            by_cases hc2 : c2 = '$'
            · subst hc2
              simp only [refsFuel, if_pos rfl] at hp
              simp only [substFuel, if_pos rfl]
              rw [ih fuel' r2 hp]
              rfl
            · by_cases hbr : c2 = '{'
              · subst hbr
                cases r2 with
                | nil => simp [refsFuel, hc2] at hp
                | cons c3 r3 =>
                  by_cases hst : isIdStart c3 = true
                  · rcases hdw : r3.dropWhile isIdChar with _ | ⟨c4, r4⟩
                    · simp [refsFuel, hc2, hst, hdw] at hp
                    · by_cases hc4 : c4 = '}'
                      · subst hc4
                        simp only [refsFuel, if_pos rfl, if_neg hc2, hst,
                          if_true, hdw] at hp
                        rcases List.mem_cons.mp hp with rfl | hp2
                        · simp [substFuel, hc2, hst, hdw, hm]
                        · simp only [substFuel, if_pos rfl, if_neg hc2, hst,
                            if_true, hdw]
                          rcases hmn : m (c3 :: r3.takeWhile isIdChar) with _ | v
                          · rfl
                          · rw [ih fuel' r4 hp2]; rfl
                      · simp [refsFuel, hc2, hst, hdw, hc4] at hp
                  · simp [refsFuel, hc2, hst] at hp
              · by_cases hst : isIdStart c2 = true
                · simp only [refsFuel, if_pos rfl, if_neg hc2, if_neg hbr, hst,
                    if_true] at hp
                  rcases List.mem_cons.mp hp with rfl | hp2
                  · simp [substFuel, hc2, hbr, hst, hm]
                  · simp only [substFuel, if_pos rfl, if_neg hc2, if_neg hbr,
                      hst, if_true]
                    rcases hmn : m (c2 :: r2.takeWhile isIdChar) with _ | v
                    · rfl
                    · rw [ih fuel' (r2.dropWhile isIdChar) hp2]; rfl
                · simp [refsFuel, hc2, hbr, hst] at hp
        · simp only [refsFuel, if_neg hc] at hp
          simp only [substFuel, if_neg hc]
          rw [ih fuel' rest hp]
          rfl

/-- C1: the claim says that after `render_to_temp` exits — normally or via
an exception raised inside the scope — the temporary directory no longer
exists and the working directory equals its pre-call value.  The
`@contextmanager` generators `changedir` and `temporary_dir` have no
`try/finally`, so on the exception path the `os.chdir(prev)` and
`rmtree(dirname)` after their `yield` never run.  Evaluating the embedding
from the state (cwd 0, no dirs, next id 1): the normal path does clean up,
but a raising block exits with the created directory 1 still present and
the working directory still 1 instead of 0. -/
theorem C1_render_to_temp_cleanup :
    render_to_temp (fun _ s => .ok s) ⟨0, [], 1⟩ = .ok ⟨0, [], 2⟩ ∧
      render_to_temp (fun _ s => .exc s) ⟨0, [], 1⟩ = .exc ⟨1, [1], 2⟩ ∧
      1 ∈ (FS.mk 1 [1] 2).dirs ∧ (FS.mk 1 [1] 2).cwd ≠ 0 :=
  ⟨rfl, rfl, by decide, by decide⟩

/-- C2 counterexample: with the index in which exactly `"1.0"` and `"1.1"`
exist, `sync_version_from_pypi` starting from `"1.0"` returns `"1.0"`,
not the claimed `"1.1"` (bumping `"1.0"` pads to `"1.0.0"` and increments,
giving `"1.0.1"`, which is absent — `"1.1"` is never probed). -/
theorem C2_counterexample :
    (sync_version_from_pypi pypiIndexTwo 3 ['1', '.', '0']).1 =
        .done ['1', '.', '0'] ∧
      pypiIndexTwo ['1', '.', '1'] = true ∧
      (['1', '.', '0'] : List Char) ≠ ['1', '.', '1'] :=
  ⟨rfl, rfl, by decide⟩

/-- C2 amended: with the index in which exactly `"1.0"` and `"1.1"` exist
and starting from stored version `"1.0"`, `sync_version_from_pypi`
returns `"1.0"` — the last version confirmed to exist, its bump being
`"1.0.1"`, which is absent — sets the stored version to the same string,
and probes the index twice. -/
theorem C2_sync_two_version_index :
    sync_version_from_pypi pypiIndexTwo 3 ['1', '.', '0'] =
      (.done ['1', '.', '0'], 2) := rfl

/-- C3 counterexample: with the index in which exactly `"1.0"` exists,
the run from `"1.0"` probes `"1.0"` (present) and `"1.0.1"` (absent) and
returns `"1.0"` — a string the index reports present, hence not "the last
version confirmed absent" (the only version confirmed absent is
`"1.0.1"`, a different string). -/
theorem C3_counterexample :
    (sync_version_from_pypi pypiIndexOne 2 ['1', '.', '0']).1 =
        .done ['1', '.', '0'] ∧
      pypiIndexOne ['1', '.', '0'] = true ∧
      pypiIndexOne ['1', '.', '0', '.', '1'] = false ∧
      (['1', '.', '0'] : List Char) ≠ ['1', '.', '0', '.', '1'] :=
  ⟨rfl, rfl, rfl, by decide⟩

/-- C3 amended: whenever `sync_version_from_pypi` returns normally after
its first probe found the version present, the returned string is the
last chain version it confirmed PRESENT — the bump of the returned
version being the one confirmed absent. -/
theorem C3_sync_returns_last_present {ex : List Char → Bool} {fuel : Nat}
    {stored s : List Char} {v : Version} (hv : parseVersion stored = some v)
    (hdone : (sync_version_from_pypi ex fuel stored).1 = .done s)
    (hfirst : ex (vstr v) = true) :
    ∃ n, (∀ k, k ≤ n → ex (vstr (chainF v k)) = true) ∧
      ex (vstr (chainF v (n + 1))) = false ∧ s = vstr (chainF v n) := by
  unfold sync_version_from_pypi at hdone
  rw [hv] at hdone
  rcases syncLoop_done_charact hdone with ⟨h1, _⟩ | ⟨_, hn⟩
  · rw [hfirst] at h1; cases h1
  · exact hn

/-- C3 witness: the amended statement evaluated on the one-version
index starting from `"1.0"`. -/
theorem C3_sync_returns_last_present_witness :
    ∃ n, (∀ k, k ≤ n → pypiIndexOne (vstr (chainF ⟨[1, 0], []⟩ k)) = true) ∧
      pypiIndexOne (vstr (chainF ⟨[1, 0], []⟩ (n + 1))) = false ∧
      ['1', '.', '0'] = vstr (chainF ⟨[1, 0], []⟩ n) :=
  @C3_sync_returns_last_present pypiIndexOne 2 ['1', '.', '0'] ['1', '.', '0']
    ⟨[1, 0], []⟩ rfl rfl rfl

/-- C4 counterexample: the claim says `bump` first ensures at least 3
segments by padding with zero; on the one-segment version `"1"` the code
appends a single zero and increments, yielding `"1.1"` with only 2
segments (the claimed behaviour would give `"1.0.1"`). -/
theorem C4_counterexample :
    parseVersion ['1'] = some ⟨[1], []⟩ ∧
      Version.bump ⟨[1], []⟩ = some ⟨[1, 1], []⟩ ∧
      (Version.mk [1, 1] []).nums.length < 3 ∧
      vstr ⟨[1, 1], []⟩ = ['1', '.', '1'] :=
  ⟨rfl, rfl, by decide, rfl⟩

/-- C4 amended: `bump` fails exactly on development versions; otherwise,
when fewer than 3 segments exist it appends a single zero segment and
increments it (so the result can still have fewer than 3 segments), and
when at least 3 exist it increments the last segment; in particular
`"1.2"` bumps to `"1.2.1"`, `"1.2.3"` to `"1.2.4"`, and `"1"` to
`"1.1"`. -/
theorem C4_bump_behaviour :
    (∀ v : Version, v.bump = none ↔ v.is_devel = true) ∧
    (∀ v : Version, v.is_devel = false → v.nums.length < 3 →
      v.bump = some ⟨v.nums ++ [1], v.devel⟩) ∧
    (∀ v : Version, v.is_devel = false → 3 ≤ v.nums.length →
      ∀ h : v.nums ≠ [],
      v.bump = some ⟨v.nums.dropLast ++ [v.nums.getLast h + 1], v.devel⟩) ∧
    ((parseVersion ['1', '.', '2']).bind Version.bump).map vstr =
      some ['1', '.', '2', '.', '1'] ∧
    ((parseVersion ['1', '.', '2', '.', '3']).bind Version.bump).map vstr =
      some ['1', '.', '2', '.', '4'] ∧
    ((parseVersion ['1']).bind Version.bump).map vstr = some ['1', '.', '1'] := by
  refine ⟨bump_eq_none_iff, ?_, ?_, rfl, rfl, rfl⟩
  · intro v hd hlen
    unfold Version.bump
    rw [if_neg (by simp [hd]), if_pos hlen, bumpLast_append_last]
  · intro v hd hlen h
    unfold Version.bump
    rw [if_neg (by simp [hd]), if_neg (by omega), bumpLast_eq_dropLast h]

/-- C4 witness: the amended statement evaluated on `"1.2"`, `"1.2.3"` and
a development version. -/
theorem C4_bump_behaviour_witness :
    Version.bump ⟨[1, 2], []⟩ = some ⟨[1, 2, 1], []⟩ ∧
      Version.bump ⟨[1, 2, 3], []⟩ = some ⟨[1, 2, 4], []⟩ ∧
      Version.bump ⟨[1, 2, 3], ['d', 'e', 'v']⟩ = none := by
  refine ⟨?_, ?_, ?_⟩
  · exact C4_bump_behaviour.2.1 ⟨[1, 2], []⟩ rfl (by decide)
  · have h := C4_bump_behaviour.2.2.1 ⟨[1, 2, 3], []⟩ rfl (by decide) (by decide)
    simpa using h
  · exact (C4_bump_behaviour.1 ⟨[1, 2, 3], ['d', 'e', 'v']⟩).mpr rfl

/-- C5 counterexample: `"01"` is a dotted-numeric string without a
development suffix and the parser accepts it, yet rendering the parsed
version back gives `"1"`, not `"01"`. -/
theorem C5_counterexample :
    (parseVersion ['0', '1']).map vstr = some ['1'] ∧
      (['1'] : List Char) ≠ ['0', '1'] :=
  ⟨rfl, by decide⟩

/-- C5 amended: the round-trip `ToString(Parse(s)) = s` holds for every
suffix-free version string in canonical form — every segment the
canonical decimal numeral of its value, i.e. every string of the shape
`str(Version(...))` — while strings with leading-zero segments re-render
canonically. -/
theorem C5_roundtrip_canonical {ns : List Nat} (h : ns ≠ []) :
    (parseVersion (vstr ⟨ns, []⟩)).map vstr = some (vstr ⟨ns, []⟩) := by
  rw [parseVersion_vstr h]
  rfl

/-- C5 witness: the round-trip evaluated on `"1.0"`. -/
theorem C5_roundtrip_canonical_witness :
    (parseVersion (vstr ⟨[1, 0], []⟩)).map vstr = some (vstr ⟨[1, 0], []⟩) :=
  C5_roundtrip_canonical (by decide)

/-- C6: whenever `bump_if_already_on_pypi` returns normally, the returned
string — which the code also stores into `self.version` before returning
it — is the first version in the bump chain from the parsed stored
version that is absent from the index, every earlier chain version being
present. -/
theorem C6_bump_if_returns_first_absent {ex : List Char → Bool} {fuel : Nat}
    {stored s : List Char} {v : Version} (hv : parseVersion stored = some v)
    (hdone : (bump_if_already_on_pypi ex fuel stored).1 = .done s) :
    ∃ n, (∀ k, k < n → ex (vstr (chainF v k)) = true) ∧
      ex (vstr (chainF v n)) = false ∧ s = vstr (chainF v n) := by
  unfold bump_if_already_on_pypi at hdone
  rw [hv] at hdone
  exact bumpLoop_done_charact hdone

/-- C6 witness: the statement evaluated on the one-version index starting
from `"1.0"`, where the first absent chain version is `"1.0.1"`. -/
theorem C6_bump_if_returns_first_absent_witness :
    ∃ n, (∀ k, k < n → pypiIndexOne (vstr (chainF ⟨[1, 0], []⟩ k)) = true) ∧
      pypiIndexOne (vstr (chainF ⟨[1, 0], []⟩ n)) = false ∧
      ['1', '.', '0', '.', '1'] = vstr (chainF ⟨[1, 0], []⟩ n) :=
  @C6_bump_if_returns_first_absent pypiIndexOne 2 ['1', '.', '0']
    ['1', '.', '0', '.', '1'] ⟨[1, 0], []⟩ rfl rfl

/-- C7 counterexample: for the starting string `"01"` — whose very first
probe reports the version absent — the function returns `"1"`, the
canonical rendering of the parsed version, not the starting string
`"01"`. -/
theorem C7_counterexample :
    (sync_version_from_pypi (fun _ => false) 1 ['0', '1']).1 = .done ['1'] ∧
      (['1'] : List Char) ≠ ['0', '1'] :=
  ⟨rfl, by decide⟩

/-- C7 amended: when the very first probe reports the version absent,
`sync_version_from_pypi` returns `str(Version(start))` — the canonical
rendering of the parsed starting version, equal to the starting string
whenever that string is canonical — performs exactly one index query, and
stores that same rendered string. -/
theorem C7_sync_first_probe_absent {ex : List Char → Bool} {stored : List Char}
    {v : Version} (hv : parseVersion stored = some v)
    (habs : ex (vstr v) = false) :
    ∀ fuel, sync_version_from_pypi ex (fuel + 1) stored = (.done (vstr v), 1) := by
  intro fuel
  unfold sync_version_from_pypi
  rw [hv]
  simp [syncLoop, habs]

/-- C7 witness: the amended statement evaluated on the empty index
starting from `"1.0"`. -/
theorem C7_sync_first_probe_absent_witness :
    sync_version_from_pypi (fun _ => false) (0 + 1) ['1', '.', '0'] =
      (.done (vstr ⟨[1, 0], []⟩), 1) :=
  @C7_sync_first_probe_absent (fun _ => false) ['1', '.', '0'] ⟨[1, 0], []⟩
    rfl rfl 0

/-- C8: `Version` comparison is inherited from `list`: less-than is
exactly the natural lexicographic order on the integer sequences and
equality is exactly equality of the integer sequences, so the development
suffix plays no role and two versions with equal integer sequences but
different suffixes compare equal. -/
theorem C8_version_order :
    (∀ a b : Version, Version.ltb a b = true ↔ List.Lex (· < ·) a.nums b.nums) ∧
    (∀ a b : Version, Version.eqb a b = true ↔ a.nums = b.nums) ∧
    (∀ a b : Version, a.nums = b.nums → Version.eqb a b = true) := by
  refine ⟨fun a b => pyListLt_iff_lex a.nums b.nums, fun a b => ?_, fun a b h => ?_⟩
  · simp [Version.eqb]
  · simp [Version.eqb, h]

/-- C8 witness: `"1.2"` and `"1.2-dev"` have equal integer sequences and
different suffixes, and compare equal. -/
theorem C8_version_order_witness :
    Version.eqb ⟨[1, 2], []⟩ ⟨[1, 2], ['d', 'e', 'v']⟩ = true :=
  C8_version_order.2.2 ⟨[1, 2], []⟩ ⟨[1, 2], ['d', 'e', 'v']⟩ rfl

/-- C9: rendering fails whenever the template references a placeholder
missing from the mapping (for both the setup and the readme template), and
placeholders are substituted directly from the mapping: the template
`"$title"` with `title` mapped to `"foo - bar"` renders to
`"foo - bar"`. -/
theorem C9_render_fails_on_missing_placeholder :
    (∀ b : Bundle, (∃ p ∈ refsIn b.setup_template, b.stash p = none) →
      b.render_setup = none) ∧
    (∀ b : Bundle, (∃ p ∈ refsIn b.readme_template, b.stash p = none) →
      b.render_readme = none) ∧
    Bundle.render_setup
      ⟨fun p => if p = ['t', 'i', 't', 'l', 'e']
          then some ['f', 'o', 'o', ' ', '-', ' ', 'b', 'a', 'r'] else none,
        ['$', 't', 'i', 't', 'l', 'e'], []⟩ =
      some ['f', 'o', 'o', ' ', '-', ' ', 'b', 'a', 'r'] := by
  refine ⟨?_, ?_, rfl⟩
  · rintro b ⟨p, hp, hm⟩
    exact substFuel_none_of_missing hm _ _ _ hp
  · rintro b ⟨p, hp, hm⟩
    exact substFuel_none_of_missing hm _ _ _ hp

/-- C9 witness: a template referencing `$x` rendered against an empty
mapping fails. -/
theorem C9_render_fails_on_missing_placeholder_witness :
    Bundle.render_setup ⟨fun _ => none, ['$', 'x'], []⟩ = none :=
  C9_render_fails_on_missing_placeholder.1 ⟨fun _ => none, ['$', 'x'], []⟩
    ⟨['x'], by decide, rfl⟩

/-- C10 counterexample: for the stored development version `"1-dev"` and
an index reporting every string present, both loops stop at once — the
probe finds the version present and the first `bump` raises `ValueError`
— so the operations terminate (the result is an error, not divergence)
although no version of the chain is absent, contradicting the claimed
equivalence. -/
theorem C10_counterexample :
    (sync_version_from_pypi (fun _ => true) 1 ['1', '-', 'd', 'e', 'v']).1 =
        .error ∧
      (bump_if_already_on_pypi (fun _ => true) 1 ['1', '-', 'd', 'e', 'v']).1 =
        .error ∧
      LoopRes.error ≠ LoopRes.diverge ∧
      ∀ s : List Char, (fun _ : List Char => true) s = true :=
  ⟨rfl, rfl, by decide, fun _ => rfl⟩

/-- C10 amended: for stored versions parsing to a NON-development version
(where `bump` never raises), each loop returns normally for some fuel iff
some version of the bump chain is absent from the index, and when every
chain version is present both loops exhaust any amount of fuel.
(Development versions stop regardless: the first probe either returns or
the first bump raises.) -/
theorem C10_termination_iff_chain_absent {ex : List Char → Bool}
    {stored : List Char} {v : Version} (hv : parseVersion stored = some v)
    (hd : v.devel = []) :
    ((∃ fuel s, (sync_version_from_pypi ex fuel stored).1 = .done s) ↔
      (∃ n, ex (vstr (chainF v n)) = false)) ∧
    ((∃ fuel s, (bump_if_already_on_pypi ex fuel stored).1 = .done s) ↔
      (∃ n, ex (vstr (chainF v n)) = false)) ∧
    ((∀ n, ex (vstr (chainF v n)) = true) →
      ∀ fuel, (sync_version_from_pypi ex fuel stored).1 = .diverge ∧
        (bump_if_already_on_pypi ex fuel stored).1 = .diverge) := by
  have hsync_eq : ∀ fuel,
      sync_version_from_pypi ex fuel stored = syncLoop ex fuel v (vstr v) := by
    intro fuel; unfold sync_version_from_pypi; rw [hv]
  have hbump_eq : ∀ fuel,
      bump_if_already_on_pypi ex fuel stored = bumpLoop ex fuel v := by
    intro fuel; unfold bump_if_already_on_pypi; rw [hv]
  refine ⟨⟨?_, ?_⟩, ⟨?_, ?_⟩, ?_⟩
  · rintro ⟨fuel, s, hs⟩
    rw [hsync_eq] at hs
    rcases syncLoop_done_charact hs with ⟨h1, _⟩ | ⟨_, n, _, habs, _⟩
    · exact ⟨0, h1⟩
    · exact ⟨n + 1, habs⟩
  · rintro ⟨n, hn⟩
    obtain ⟨s, hs⟩ := syncLoop_done_of_absent hd hn (vstr v)
    exact ⟨n + 1, s, by rw [hsync_eq]; exact hs⟩
  · rintro ⟨fuel, s, hs⟩
    rw [hbump_eq] at hs
    obtain ⟨n, _, habs, _⟩ := bumpLoop_done_charact hs
    exact ⟨n, habs⟩
  · rintro ⟨n, hn⟩
    obtain ⟨s, hs⟩ := bumpLoop_done_of_absent hd hn
    exact ⟨n + 1, s, by rw [hbump_eq]; exact hs⟩
  · intro hall fuel
    constructor
    · rw [hsync_eq]
      exact syncLoop_diverge_of_all_present hd hall fuel (vstr v)
    · rw [hbump_eq]
      exact bumpLoop_diverge_of_all_present hd hall fuel

/-- C10 witness: the amended statement evaluated on the empty index
starting from `"1.0"`: both loops terminate. -/
theorem C10_termination_iff_chain_absent_witness :
    (∃ fuel s, (sync_version_from_pypi (fun _ => false) fuel
        ['1', '.', '0']).1 = .done s) ∧
      (∃ fuel s, (bump_if_already_on_pypi (fun _ => false) fuel
        ['1', '.', '0']).1 = .done s) :=
  ⟨(@C10_termination_iff_chain_absent (fun _ => false) ['1', '.', '0']
      ⟨[1, 0], []⟩ rfl rfl).1.mpr ⟨0, rfl⟩,
    (@C10_termination_iff_chain_absent (fun _ => false) ['1', '.', '0']
      ⟨[1, 0], []⟩ rfl rfl).2.1.mpr ⟨0, rfl⟩⟩
